import Mathlib

/-!
# streamd: a line stream served to TCP clients

A shallow embedding of `streamd.go`.

* Go strings are byte sequences: a line is a `List UInt8`.
* `clients map[int]chan(string)` is a function from keys to optional channels; a
  missing key reads as the nil channel (`none`).  Every channel of the program
  is created at line 122 and stored in exactly one slot of `clients`, which is
  also the only place it is read from (lines 93 and 130), so a channel is
  modelled by value: its capacity and the lines queued in it, oldest first.
* `connectedClients` is a Go `int`, modelled as an unbounded `Int`.
* The statements guarded by `lock` are atomic steps.
* The critical section of `readFile` only spawns one goroutine per index; each
  goroutine looks `clients[i]` up and sends when it is scheduled.  `Sched`
  keeps the goroutines spawned and not yet run, and `schedStep` runs them one
  at a time.  `broadcast` is the schedule in which every goroutine runs where
  it is spawned, in index order (`broadcast_eq_spawn_then_run`).
* A handler reads the slot `clients[id]` at every turn of its loop.  A handler
  parked at line 130 on an empty channel whose slot is then overwritten stays on
  the old channel object; no theorem below concludes on a handler in that
  position.
* The handler goroutines are kept as a list of records (identifier, phase, the
  lines accepted by `con.Write`); this is bookkeeping, the code has no such list.
-/

namespace Streamd

/-- A Go string: a sequence of bytes. -/
abbrev Line := List UInt8

/-- Lines 18-20. -/
def CHANNEL_BUFFER_SIZE : Nat := 100

/-- A buffered channel of strings: its capacity and the queued lines, oldest first. -/
structure Chan where
  cap : Nat
  buf : List Line
deriving DecidableEq, Repr

/-- The call `make(chan (string), n)`. -/
def makeChan (n : Nat) : Chan := ⟨n, []⟩

/-- The statement `select { case ch <- line: default: }` of lines 92-95 on a
non-nil channel: the send is taken when the buffer has room, else `default`. -/
def trySend (ch : Chan) (line : Line) : Chan :=
  if ch.buf.length < ch.cap then ⟨ch.cap, ch.buf ++ [line]⟩ else ch

/-- The writable map `clients`. -/
abbrev ClientMap := Int → Option Chan

/-- The assignment `m[k] = v`. -/
def mapSet (m : ClientMap) (k : Int) (v : Chan) : ClientMap :=
  fun j => if j = k then some v else m j

/-- The global variables `clients` and `connectedClients` (lines 26 and 28). -/
structure Registry where
  clients : ClientMap
  connectedClients : Int

/-- Lines 38-39 of `main`. -/
def initRegistry : Registry := ⟨fun _ => none, 0⟩

/-- The body of the goroutine of lines 91-96 for index `i`: a try-send on
`clients[i]`; on the nil channel the send can never proceed, so `default` runs. -/
def sendTo (m : ClientMap) (i : Int) (line : Line) : ClientMap :=
  match m i with
  | none => m
  | some ch => mapSet m i (trySend ch line)

/-- The critical section of `readFile`, lines 84-103, for one line read. -/
def broadcast (r : Registry) (line : Line) : Registry :=
  if r.connectedClients > 0 then
    ⟨(List.range r.connectedClients.toNat).foldl
        (fun m i => sendTo m (Int.ofNat i) line) r.clients,
      r.connectedClients⟩
  else r

/-- The registration of `handleConnection`, lines 121-126: the new registry and
the identifier `id` of the handler. -/
def register (r : Registry) : Registry × Int :=
  (⟨mapSet r.clients r.connectedClients (makeChan CHANNEL_BUFFER_SIZE),
    r.connectedClients + 1⟩, r.connectedClients)

/-- The locked part of the deferred function, lines 115-117. -/
def cleanup (r : Registry) : Registry :=
  ⟨r.clients, r.connectedClients - 1⟩

/-- The receive `<-clients[id]` of line 130: the oldest queued line and the
registry without it, or `none` when the receive blocks. -/
def recv (r : Registry) (id : Int) : Option (Line × Registry) :=
  match r.clients id with
  | none => none
  | some ch =>
    match ch.buf with
    | [] => none
    | l :: rest => some (l, ⟨mapSet r.clients id ⟨ch.cap, rest⟩, r.connectedClients⟩)

/-- Where a handler goroutine is: in the loop of lines 127-133, or past its
deferred function. -/
inductive Phase where
  | Streaming
  | Closed
deriving DecidableEq, Repr

/-- One `handleConnection` goroutine. -/
structure Handler where
  id : Int
  phase : Phase
  written : List Line
deriving DecidableEq, Repr

/-- What `con.Write` of line 132 does: it takes the bytes, it returns an error
(which line 132 discards), or it panics. -/
inductive WriteResult where
  | ok
  | err
  | panics
deriving DecidableEq, Repr

/-- The registry and the handler goroutines started so far, in start order. -/
structure System where
  reg : Registry
  handlers : List Handler

/-- The state `main` sets up before any connection. -/
def initSystem : System := ⟨initRegistry, []⟩

/-- A new connection: `handleConnection` runs its registration. -/
def connect (s : System) : System :=
  ⟨(register s.reg).1, s.handlers ++ [⟨(register s.reg).2, Phase.Streaming, []⟩]⟩

/-- The deferred function of lines 110-119 runs for handler `n`. -/
def disconnect (s : System) (n : Nat) : System :=
  match s.handlers[n]? with
  | none => s
  | some h =>
    match h.phase with
    | Phase.Closed => s
    | Phase.Streaming => ⟨cleanup s.reg, s.handlers.set n { h with phase := Phase.Closed }⟩

/-- One turn of the loop of lines 127-133 for handler `n`, with the outcome of
its `con.Write`. -/
def iterate (s : System) (n : Nat) (w : WriteResult) : System :=
  match s.handlers[n]? with
  | none => s
  | some h =>
    match h.phase with
    | Phase.Closed => s
    | Phase.Streaming =>
      match recv s.reg h.id with
      | none => s
      | some (line, reg1) =>
        match w with
        | WriteResult.ok =>
          ⟨reg1, s.handlers.set n { h with written := h.written ++ [line] }⟩
        | WriteResult.err => ⟨reg1, s.handlers⟩
        | WriteResult.panics =>
          disconnect ⟨reg1, s.handlers⟩ n

/-- The atomic steps of the running program. -/
inductive Event where
  | connect
  | disconnect (n : Nat)
  | broadcast (line : Line)
  | iterate (n : Nat) (w : WriteResult)
deriving DecidableEq, Repr

/-- One step. -/
def step (s : System) : Event → System
  | Event.connect => connect s
  | Event.disconnect n => disconnect s n
  | Event.broadcast line => ⟨broadcast s.reg line, s.handlers⟩
  | Event.iterate n w => iterate s n w

/-- A run. -/
def run (s : System) (evs : List Event) : System := evs.foldl step s

/-- The states the program reaches from its start. -/
def Reachable (s : System) : Prop := ∃ evs, s = run initSystem evs

/-- Handler `n` is registered and its deferred function has not run. -/
def Active (s : System) (n : Nat) : Prop :=
  ∃ h, s.handlers[n]? = some h ∧ h.phase = Phase.Streaming

/-- The identifier of handler `n`. -/
def idOf (s : System) (n : Nat) : Option Int := (s.handlers[n]?).map Handler.id

/-- The error value `reader.ReadString` returns with its data: `nil`, `io.EOF`,
or another error. -/
inductive ReadErr where
  | nil
  | EOF
  | other
deriving DecidableEq, Repr

/-- What the input stream yields next: a byte, or a read error other than
end-of-stream.  The end of the list is the end of the stream. -/
inductive Item where
  | byte (b : UInt8)
  | fault
deriving DecidableEq, Repr

/-- The library call `reader.ReadString(delim)` of package `bufio`: the bytes up
to and including the first `delim` with a nil error, or, when an error comes
first, the bytes read before it together with that error; and the stream that is
left. -/
def readString (delim : UInt8) : List Item → Line × ReadErr × List Item
  | [] => ([], ReadErr.EOF, [])
  | Item.fault :: rest => ([], ReadErr.other, rest)
  | Item.byte b :: rest =>
    if b = delim then ([b], ReadErr.nil, rest)
    else ((b :: (readString delim rest).1), (readString delim rest).2.1,
      (readString delim rest).2.2)

/-- The loop of `readFile`, lines 79-104, with a bound on the number of turns:
the lines handed to the critical section, in order, and the registry at the
return of line 82; `none` when the bound is used up. -/
def readFileLoop : Nat → List Item → Registry → Option (List Line × Registry)
  | 0, _, _ => none
  | fuel + 1, input, r =>
    if (readString 10 input).2.1 = ReadErr.EOF then some ([], r)
    else
      (readFileLoop fuel (readString 10 input).2.2 (broadcast r (readString 10 input).1)).map
        (fun p => ((readString 10 input).1 :: p.1, p.2))

/-- The function `readFile` (lines 76-105) on a whole input stream. -/
def readFile (input : List Item) (r : Registry) : Option (List Line × Registry) :=
  readFileLoop (input.length + 1) input r

/-- The state between two turns of scenario B: two handlers, the first one
never receives, the second one has emptied its channel. -/
def ScenarioB (s : System) (b w : List Line) : Prop :=
  s.reg.connectedClients = 2 ∧ s.reg.clients 0 = some ⟨100, b⟩ ∧
    s.reg.clients 1 = some ⟨100, []⟩ ∧
    s.handlers = [⟨0, Phase.Streaming, []⟩, ⟨1, Phase.Streaming, w⟩]

/-- One line is broadcast, then the second handler takes it and writes it. -/
def turnB (s : System) (l : Line) : System :=
  step (step s (Event.broadcast l)) (Event.iterate 1 WriteResult.ok)

/-- The lines queued in the channel `clients[id]`; none on the nil channel. -/
def bufAt (r : Registry) (id : Int) : List Line :=
  match r.clients id with
  | none => []
  | some ch => ch.buf

/-- The lines broadcast in a run, in order. -/
def broadcastLines : List Event → List Line
  | [] => []
  | Event.broadcast l :: evs => l :: broadcastLines evs
  | Event.connect :: evs => broadcastLines evs
  | Event.disconnect _ :: evs => broadcastLines evs
  | Event.iterate _ _ :: evs => broadcastLines evs

/-- Handler `n` holds identifier `id`, and what it has written followed by what
waits in `clients[id]` is drawn, in order, from the lines `L`. -/
def DrawnFrom (n : Nat) (id : Int) (s : System) (L : List Line) : Prop :=
  ∃ h, s.handlers[n]? = some h ∧ h.id = id ∧ List.Sublist (h.written ++ bufAt s.reg id) L

/-- The goroutines that the critical section of `readFile` (lines 84-103) spawns
for one line read: one per index below `connectedClients`, each holding its
index and the line. -/
def spawnSends (r : Registry) (line : Line) : List (Int × Line) :=
  if r.connectedClients > 0 then
    (List.range r.connectedClients.toNat).map (fun i => (Int.ofNat i, line))
  else []

/-- The running program with its send goroutines: the system, and the
goroutines of line 91 spawned and not yet run. -/
structure Sched where
  sys : System
  pending : List (Int × Line)

/-- The start of the program: no connection, no goroutine. -/
def initSched : Sched := ⟨initSystem, []⟩

/-- The steps of the program when the send goroutines run on their own. -/
inductive SchedEvent where
  | connect
  | disconnect (n : Nat)
  | readLine (line : Line)
  | runSend (k : Nat)
  | iterate (n : Nat) (w : WriteResult)
deriving DecidableEq, Repr

/-- One step: `readLine` is the critical section of `readFile`, which spawns the
goroutines; `runSend k` runs the body of the `k`-th pending goroutine (lines
92-95) on the map as it is then. -/
def schedStep (c : Sched) : SchedEvent → Sched
  | SchedEvent.connect => ⟨connect c.sys, c.pending⟩
  | SchedEvent.disconnect n => ⟨disconnect c.sys n, c.pending⟩
  | SchedEvent.readLine line => ⟨c.sys, c.pending ++ spawnSends c.sys.reg line⟩
  | SchedEvent.runSend k =>
    match c.pending[k]? with
    | none => c
    | some p =>
      ⟨⟨⟨sendTo c.sys.reg.clients p.1 p.2, c.sys.reg.connectedClients⟩, c.sys.handlers⟩,
        c.pending.eraseIdx k⟩
  | SchedEvent.iterate n w => ⟨iterate c.sys n w, c.pending⟩

/-- A run with the send goroutines scheduled on their own. -/
def schedRun (c : Sched) (evs : List SchedEvent) : Sched := evs.foldl schedStep c

/-- What `recover()` yields at line 112: nil, a value of type `error`, or a
value of another type. -/
inductive Recovered where
  | nothing
  | anError
  | notAnError
deriving DecidableEq, Repr

/-- How a run of the deferred function ends: it returns, or a panic leaves it;
with the registry as it is then. -/
inductive Deferred where
  | returns (r : Registry)
  | panics (r : Registry)

/-- A Go `int` of 64 bits: the value of a result that wraps around. -/
def wrapInt (z : Int) : Int :=
  (z + 9223372036854775808) % 18446744073709551616 - 9223372036854775808

/-- The deferred function of `handleConnection`, lines 110-119, on the
registry: the type assertion `err.(error)` of line 113 panics on a recovered
value that is no `error`, before the lock is taken; lines 115-117 decrement
`connectedClients`; `con.Close()` of line 118 panics on a nil `con`. -/
def deferredFunc (r : Registry) (rec : Recovered) (conNil : Bool) : Deferred :=
  match rec with
  | Recovered.notAnError => Deferred.panics r
  | Recovered.nothing =>
    if conNil then Deferred.panics ⟨r.clients, wrapInt (r.connectedClients - 1)⟩
    else Deferred.returns ⟨r.clients, wrapInt (r.connectedClients - 1)⟩
  | Recovered.anError =>
    if conNil then Deferred.panics ⟨r.clients, wrapInt (r.connectedClients - 1)⟩
    else Deferred.returns ⟨r.clients, wrapInt (r.connectedClients - 1)⟩

/-- The number of handlers that are registered and whose deferred function has
not run. -/
def activeCount (s : System) : Nat :=
  s.handlers.countP (fun h => decide (h.phase = Phase.Streaming))

/-! ## The broadcast step -/

theorem mapSet_apply (m : ClientMap) (k j : Int) (v : Chan) :
    mapSet m k v j = if j = k then some v else m j := rfl

theorem sendTo_apply (m : ClientMap) (i k : Int) (line : Line) :
    sendTo m i line k = if k = i then (m k).map (fun ch => trySend ch line) else m k := by
  unfold sendTo
  by_cases hk : k = i
  · subst hk
    cases hm : m k <;> simp [mapSet_apply, hm]
  · cases hm : m i <;> simp [mapSet_apply, hk]

theorem foldl_sendTo_apply (line : Line) (is : List Nat) (hnd : is.Nodup) (m : ClientMap)
    (k : Int) :
    (is.foldl (fun m i => sendTo m (Int.ofNat i) line) m) k =
      if k ∈ is.map Int.ofNat then (m k).map (fun ch => trySend ch line) else m k := by
  induction is generalizing m with
  | nil => simp
  | cons i is ih =>
    have hni : i ∉ is := (List.nodup_cons.mp hnd).1
    rw [List.foldl_cons, ih (List.nodup_cons.mp hnd).2, sendTo_apply]
    by_cases hk : k = Int.ofNat i
    · have hnot : k ∉ is.map Int.ofNat := by
        intro hmem
        obtain ⟨j, hj, hjk⟩ := List.mem_map.mp hmem
        rw [hk] at hjk
        have : j = i := Int.ofNat.inj hjk
        exact hni (this ▸ hj)
      have hyes : k ∈ (i :: is).map Int.ofNat := by
        rw [List.map_cons]; exact hk ▸ List.mem_cons_self _ _
      rw [if_neg hnot, if_pos hk, if_pos hyes]
    · have hiff : k ∈ (i :: is).map Int.ofNat ↔ k ∈ is.map Int.ofNat := by
        rw [List.map_cons, List.mem_cons]
        exact ⟨fun h => h.resolve_left hk, Or.inr⟩
      rw [if_neg hk]
      by_cases hmem : k ∈ is.map Int.ofNat
      · rw [if_pos hmem, if_pos (hiff.mpr hmem)]
      · rw [if_neg hmem, if_neg (fun h => hmem (hiff.mp h))]

theorem mem_range_ofNat (c k : Int) :
    k ∈ (List.range c.toNat).map Int.ofNat ↔ 0 ≤ k ∧ k < c := by
  constructor
  · intro h
    obtain ⟨j, hj, hjk⟩ := List.mem_map.mp h
    have hj2 : j < c.toNat := List.mem_range.mp hj
    subst hjk
    constructor
    · exact Int.ofNat_nonneg j
    · have : (j : Int) < c := Int.lt_toNat.mp hj2
      simpa using this
  · rintro ⟨h0, hc⟩
    refine List.mem_map.mpr ⟨k.toNat, List.mem_range.mpr ?_, ?_⟩
    · omega
    · simp [Int.toNat_of_nonneg h0]

/-- What one broadcast does to each slot of `clients`. -/
theorem broadcast_clients (r : Registry) (line : Line) (k : Int) :
    (broadcast r line).clients k =
      if 0 ≤ k ∧ k < r.connectedClients then (r.clients k).map (fun ch => trySend ch line)
      else r.clients k := by
  unfold broadcast
  by_cases hc : r.connectedClients > 0
  · simp only [hc, if_true]
    rw [foldl_sendTo_apply line _ (List.nodup_range _)]
    simp only [mem_range_ofNat]
  · have : ¬ (0 ≤ k ∧ k < r.connectedClients) := by omega
    simp [hc, this]

theorem broadcast_connectedClients (r : Registry) (line : Line) :
    (broadcast r line).connectedClients = r.connectedClients := by
  unfold broadcast
  split <;> rfl

/-! ## Scenario B: a stalled client next to a draining one -/

theorem scenarioB_start : ScenarioB (connect (connect initSystem)) [] [] := by
  refine ⟨by decide, by decide, by decide, by decide⟩

theorem scenarioB_turn (s : System) (b w : List Line) (l : Line) (h : ScenarioB s b w) :
    ScenarioB (turnB s l) (if b.length < 100 then b ++ [l] else b) (w ++ [l]) := by
  obtain ⟨hc, h0, h1, hh⟩ := h
  have e0 : (broadcast s.reg l).clients 0 = some (trySend ⟨100, b⟩ l) := by
    rw [broadcast_clients, if_pos (by omega), h0]; rfl
  have e1 : (broadcast s.reg l).clients 1 = some ⟨100, [l]⟩ := by
    rw [broadcast_clients, if_pos (by omega), h1]; rfl
  have ec : (broadcast s.reg l).connectedClients = 2 := by
    rw [broadcast_connectedClients, hc]
  have hrecv : recv (broadcast s.reg l) 1 =
      some (l, ⟨mapSet (broadcast s.reg l).clients 1 ⟨100, []⟩, 2⟩) := by
    simp [recv, e1, ec]
  have ht : turnB s l =
      ⟨⟨mapSet (broadcast s.reg l).clients 1 ⟨100, []⟩, 2⟩,
        [⟨0, Phase.Streaming, []⟩, ⟨1, Phase.Streaming, w ++ [l]⟩]⟩ := by
    simp [turnB, step, iterate, hh, hrecv]
  rw [ht]
  refine ⟨rfl, ?_, ?_, rfl⟩
  · show mapSet (broadcast s.reg l).clients 1 ⟨100, []⟩ 0 = _
    rw [mapSet_apply, if_neg (by decide), e0]
    simp only [trySend]
    split <;> rfl
  · show mapSet (broadcast s.reg l).clients 1 ⟨100, []⟩ 1 = _
    rw [mapSet_apply, if_pos rfl]

theorem scenarioB_run (ls : List Line) (s : System) (b w : List Line) (h : ScenarioB s b w)
    (hb : b.length ≤ 100) :
    ScenarioB (ls.foldl turnB s) ((b ++ ls).take 100) (w ++ ls) := by
  induction ls generalizing s b w with
  | nil => simpa [List.take_of_length_le hb] using h
  | cons l ls ih =>
    rw [List.foldl_cons]
    have h1 := scenarioB_turn s b w l h
    by_cases hlt : b.length < 100
    · rw [if_pos hlt] at h1
      have := ih _ _ _ h1 (by simp; omega)
      simpa using this
    · rw [if_neg hlt] at h1
      have hlen : b.length = 100 := by omega
      have := ih _ _ _ h1 hb
      have e1 : (b ++ ls).take 100 = b := by
        rw [← hlen]; exact List.take_left' rfl
      have e2 : (b ++ l :: ls).take 100 = b := by
        rw [← hlen]; exact List.take_left' rfl
      rw [e1] at this
      rw [e2]
      simpa using this

/-! ## C3 -/

/-- C3: the try-send of a broadcast appends the line at the tail of a targeted
channel of capacity 100 that holds fewer than 100 lines, leaves a targeted
channel that holds 100 lines exactly as it is, and what becomes of one slot
depends on no other slot of `clients`; in scenario B the stalled client keeps
the first 100 of 101 lines while the draining client writes all 101. -/
theorem try_enqueue_drop_newest (r : Registry) (line : Line) (i : Int) (ch : Chan)
    (hi : 0 ≤ i ∧ i < r.connectedClients) (hch : r.clients i = some ch)
    (hcap : ch.cap = CHANNEL_BUFFER_SIZE) :
    (ch.buf.length < 100 → (broadcast r line).clients i = some ⟨100, ch.buf ++ [line]⟩) ∧
    (ch.buf.length = 100 → (broadcast r line).clients i = some ch) ∧
    (∀ r2 : Registry, r2.connectedClients = r.connectedClients → r2.clients i = some ch →
      (broadcast r2 line).clients i = (broadcast r line).clients i) ∧
    (∀ ls : List Line, ls.length = 101 →
      ((ls.foldl turnB (connect (connect initSystem))).reg.clients 0).map Chan.buf
          = some (ls.take 100) ∧
        (ls.foldl turnB (connect (connect initSystem))).handlers
          = [⟨0, Phase.Streaming, []⟩, ⟨1, Phase.Streaming, ls⟩] ∧
        ls.take 100 ≠ ls) := by
  have hb : (broadcast r line).clients i = some (trySend ch line) := by
    rw [broadcast_clients, if_pos hi, hch]; rfl
  have hcap2 : ch.cap = 100 := hcap
  refine ⟨?_, ?_, ?_, ?_⟩
  · intro hlt
    rw [hb]
    simp [trySend, hcap2, hlt]
  · intro heq
    rw [hb]
    simp [trySend, hcap2, heq]
  · intro r2 hc2 hch2
    rw [hb, broadcast_clients, if_pos (hc2 ▸ hi), hch2]; rfl
  · intro ls hlen
    obtain ⟨_, h0, _, hh⟩ := scenarioB_run ls _ [] [] scenarioB_start (by simp)
    refine ⟨?_, ?_, ?_⟩
    · rw [h0]; simp
    · simpa using hh
    · intro h
      have := congrArg List.length h
      simp [hlen] at this

/-- C3 at the registry of one connected client, whose channel is empty, and the
line `a\n`. -/
theorem try_enqueue_drop_newest_witness :
    ((0 : Int) ≤ 0 ∧ (0 : Int) < (connect initSystem).reg.connectedClients) ∧
    (connect initSystem).reg.clients 0 = some ⟨100, []⟩ ∧
    (⟨100, []⟩ : Chan).cap = CHANNEL_BUFFER_SIZE ∧
    (((⟨100, []⟩ : Chan).buf.length < 100 →
        (broadcast (connect initSystem).reg [97, 10]).clients 0
          = some ⟨100, (⟨100, []⟩ : Chan).buf ++ [[97, 10]]⟩) ∧
      ((⟨100, []⟩ : Chan).buf.length = 100 →
        (broadcast (connect initSystem).reg [97, 10]).clients 0 = some ⟨100, []⟩) ∧
      (∀ r2 : Registry, r2.connectedClients = (connect initSystem).reg.connectedClients →
        r2.clients 0 = some ⟨100, []⟩ →
        (broadcast r2 [97, 10]).clients 0
          = (broadcast (connect initSystem).reg [97, 10]).clients 0) ∧
      (∀ ls : List Line, ls.length = 101 →
        ((ls.foldl turnB (connect (connect initSystem))).reg.clients 0).map Chan.buf
            = some (ls.take 100) ∧
          (ls.foldl turnB (connect (connect initSystem))).handlers
            = [⟨0, Phase.Streaming, []⟩, ⟨1, Phase.Streaming, ls⟩] ∧
          ls.take 100 ≠ ls)) :=
  ⟨by decide, by decide, rfl,
    try_enqueue_drop_newest (connect initSystem).reg [97, 10] 0 ⟨100, []⟩
      (by decide) (by decide) rfl⟩

/-! ## No replay -/

theorem recv_some (r r1 : Registry) (id : Int) (line : Line)
    (h : recv r id = some (line, r1)) :
    ∃ cap rest, r.clients id = some ⟨cap, line :: rest⟩ ∧
      r1 = ⟨mapSet r.clients id ⟨cap, rest⟩, r.connectedClients⟩ := by
  unfold recv at h
  cases hc : r.clients id with
  | none => simp [hc] at h
  | some ch =>
    obtain ⟨cap, buf⟩ := ch
    cases buf with
    | nil => simp [hc] at h
    | cons l rest =>
      simp [hc] at h
      obtain ⟨h1, h2⟩ := h
      exact ⟨cap, rest, by rw [h1], h2.symm⟩

theorem bufAt_recv (r r1 : Registry) (id k : Int) (line : Line)
    (h : recv r id = some (line, r1)) :
    (k = id ∧ bufAt r k = line :: bufAt r1 k) ∨ (k ≠ id ∧ bufAt r1 k = bufAt r k) := by
  obtain ⟨cap, rest, hc, rfl⟩ := recv_some r r1 id line h
  by_cases hk : k = id
  · left
    subst hk
    refine ⟨rfl, ?_⟩
    simp [bufAt, hc, mapSet_apply]
  · right
    refine ⟨hk, ?_⟩
    simp [bufAt, mapSet_apply, hk]

theorem bufAt_broadcast (r : Registry) (l : Line) (k : Int) :
    bufAt (broadcast r l) k = bufAt r k ∨ bufAt (broadcast r l) k = bufAt r k ++ [l] := by
  unfold bufAt
  rw [broadcast_clients]
  by_cases ht : 0 ≤ k ∧ k < r.connectedClients
  · rw [if_pos ht]
    cases hc : r.clients k with
    | none => left; rfl
    | some ch =>
      by_cases hlt : ch.buf.length < ch.cap
      · right; simp [trySend, hlt]
      · left; simp [trySend, hlt]
  · rw [if_neg ht]
    left; rfl

theorem bufAt_register (r : Registry) (k : Int) :
    bufAt (register r).1 k = [] ∨ bufAt (register r).1 k = bufAt r k := by
  unfold bufAt register
  simp only [mapSet_apply]
  by_cases hk : k = r.connectedClients
  · left; rw [if_pos hk]; rfl
  · right; rw [if_neg hk]

theorem getElem?_lt_length (hs : List Handler) (n : Nat) (h : Handler)
    (hn : hs[n]? = some h) : n < hs.length := by
  by_contra hge
  rw [List.getElem?_eq_none (by omega)] at hn
  cases hn

theorem disconnect_handler (s : System) (m n : Nat) (h : Handler)
    (hn : s.handlers[n]? = some h) :
    (disconnect s m).reg.clients = s.reg.clients ∧
      ∃ h1, (disconnect s m).handlers[n]? = some h1 ∧ h1.id = h.id ∧ h1.written = h.written := by
  cases hm : s.handlers[m]? with
  | none =>
    have e : disconnect s m = s := by simp [disconnect, hm]
    rw [e]; exact ⟨rfl, h, hn, rfl, rfl⟩
  | some hm1 =>
    cases hp : hm1.phase with
    | Closed =>
      have e : disconnect s m = s := by simp [disconnect, hm, hp]
      rw [e]; exact ⟨rfl, h, hn, rfl, rfl⟩
    | Streaming =>
      have e : disconnect s m =
          ⟨cleanup s.reg, s.handlers.set m { hm1 with phase := Phase.Closed }⟩ := by
        simp [disconnect, hm, hp]
      rw [e]
      refine ⟨rfl, ?_⟩
      by_cases hmn : m = n
      · subst hmn
        rw [hn] at hm
        cases hm
        have hlt : m < s.handlers.length := getElem?_lt_length _ _ _ hn
        exact ⟨{ h with phase := Phase.Closed },
          by simp [List.getElem?_set_self hlt], rfl, rfl⟩
      · exact ⟨h, by rw [List.getElem?_set_ne hmn]; exact hn, rfl, rfl⟩

theorem drawnFrom_disconnect (n : Nat) (id : Int) (s : System) (L : List Line) (m : Nat)
    (h : DrawnFrom n id s L) : DrawnFrom n id (disconnect s m) L := by
  obtain ⟨h0, hn, hid, hsub⟩ := h
  obtain ⟨hcl, h1, hn1, hid1, hw1⟩ := disconnect_handler s m n h0 hn
  refine ⟨h1, hn1, hid1.trans hid, ?_⟩
  have hb : bufAt (disconnect s m).reg id = bufAt s.reg id := by
    simp only [bufAt, hcl]
  rw [hw1, hb]
  exact hsub

theorem drawnFrom_recv (n : Nat) (id : Int) (s : System) (L : List Line) (k : Int)
    (line : Line) (r1 : Registry) (hr : recv s.reg k = some (line, r1))
    (h : DrawnFrom n id s L) : DrawnFrom n id ⟨r1, s.handlers⟩ L := by
  obtain ⟨h0, hn, hid, hsub⟩ := h
  refine ⟨h0, hn, hid, ?_⟩
  show List.Sublist (h0.written ++ bufAt r1 id) L
  rcases bufAt_recv s.reg r1 k id line hr with ⟨_, hb⟩ | ⟨_, hb⟩
  · rw [hb] at hsub
    exact ((List.sublist_cons_self line _).append_left h0.written).trans hsub
  · rw [hb]; exact hsub

theorem drawnFrom_recv_ok (n : Nat) (id : Int) (s : System) (L : List Line) (m : Nat)
    (hm : Handler) (line : Line) (r1 : Registry) (hmm : s.handlers[m]? = some hm)
    (hr : recv s.reg hm.id = some (line, r1)) (h : DrawnFrom n id s L) :
    DrawnFrom n id ⟨r1, s.handlers.set m { hm with written := hm.written ++ [line] }⟩ L := by
  by_cases hmn : m = n
  · subst hmn
    obtain ⟨h0, hn, hid, hsub⟩ := h
    rw [hmm] at hn
    cases hn
    have hlt : m < s.handlers.length := getElem?_lt_length _ _ _ hmm
    refine ⟨{ hm with written := hm.written ++ [line] },
      by simp [List.getElem?_set_self hlt], hid, ?_⟩
    show List.Sublist ((hm.written ++ [line]) ++ bufAt r1 id) L
    rcases bufAt_recv s.reg r1 hm.id id line hr with ⟨_, hb⟩ | ⟨hne, _⟩
    · rw [hb] at hsub
      simpa using hsub
    · exact absurd hid.symm hne
  · obtain ⟨h0, hn, hid, hsub⟩ := drawnFrom_recv n id s L hm.id line r1 hr h
    exact ⟨h0, by rw [List.getElem?_set_ne hmn]; exact hn, hid, hsub⟩

theorem drawnFrom_step (n : Nat) (id : Int) (s : System) (L : List Line) (ev : Event)
    (h : DrawnFrom n id s L) : DrawnFrom n id (step s ev) (L ++ broadcastLines [ev]) := by
  cases ev with
  | connect =>
    obtain ⟨h0, hn, hid, hsub⟩ := h
    have hlt : n < s.handlers.length := getElem?_lt_length _ _ _ hn
    refine ⟨h0, ?_, hid, ?_⟩
    · show (s.handlers ++ _)[n]? = some h0
      rw [List.getElem?_append_left hlt]; exact hn
    · show List.Sublist (h0.written ++ bufAt (register s.reg).1 id) (L ++ [])
      rw [List.append_nil]
      rcases bufAt_register s.reg id with hb | hb
      · rw [hb]
        exact ((List.nil_sublist _).append_left h0.written).trans hsub
      · rw [hb]; exact hsub
  | disconnect m =>
    have := drawnFrom_disconnect n id s L m h
    simpa [step, broadcastLines] using this
  | broadcast l =>
    obtain ⟨h0, hn, hid, hsub⟩ := h
    refine ⟨h0, hn, hid, ?_⟩
    show List.Sublist (h0.written ++ bufAt (broadcast s.reg l) id) (L ++ [l])
    rcases bufAt_broadcast s.reg l id with hb | hb
    · rw [hb]; exact hsub.trans (List.sublist_append_left _ _)
    · rw [hb, ← List.append_assoc]
      exact hsub.append (List.Sublist.refl _)
  | iterate m w =>
    show DrawnFrom n id (iterate s m w) (L ++ [])
    rw [List.append_nil]
    cases hmm : s.handlers[m]? with
    | none =>
      have e : iterate s m w = s := by simp [iterate, hmm]
      rw [e]; exact h
    | some hm =>
      cases hp : hm.phase with
      | Closed =>
        have e : iterate s m w = s := by simp [iterate, hmm, hp]
        rw [e]; exact h
      | Streaming =>
        cases hr : recv s.reg hm.id with
        | none =>
          have e : iterate s m w = s := by simp [iterate, hmm, hp, hr]
          rw [e]; exact h
        | some p =>
          obtain ⟨line, r1⟩ := p
          cases w with
          | ok =>
            have e : iterate s m WriteResult.ok =
                ⟨r1, s.handlers.set m { hm with written := hm.written ++ [line] }⟩ := by
              simp [iterate, hmm, hp, hr]
            rw [e]; exact drawnFrom_recv_ok n id s L m hm line r1 hmm hr h
          | err =>
            have e : iterate s m WriteResult.err = ⟨r1, s.handlers⟩ := by
              simp [iterate, hmm, hp, hr]
            rw [e]; exact drawnFrom_recv n id s L hm.id line r1 hr h
          | panics =>
            have e : iterate s m WriteResult.panics = disconnect ⟨r1, s.handlers⟩ m := by
              simp [iterate, hmm, hp, hr]
            rw [e]
            exact drawnFrom_disconnect n id _ L m (drawnFrom_recv n id s L hm.id line r1 hr h)

theorem broadcastLines_cons (ev : Event) (evs : List Event) :
    broadcastLines (ev :: evs) = broadcastLines [ev] ++ broadcastLines evs := by
  cases ev <;> simp [broadcastLines]

theorem drawnFrom_run (n : Nat) (id : Int) (evs : List Event) (s : System) (L : List Line)
    (h : DrawnFrom n id s L) : DrawnFrom n id (run s evs) (L ++ broadcastLines evs) := by
  induction evs generalizing s L with
  | nil => simpa [run, broadcastLines] using h
  | cons ev evs ih =>
    have h1 := ih (step s ev) _ (drawnFrom_step n id s L ev h)
    rw [broadcastLines_cons, ← List.append_assoc]
    exact h1

/-- When every send goroutine runs where it is spawned: in every state the
channel that registration stores for the new handler is empty, and along every
later run the lines this handler has written, followed by the lines waiting in
its channel, are drawn in order from the lines broadcast after its
registration. -/
theorem no_replay_when_sent_at_dispatch (s : System) (evs : List Event) :
    (connect s).reg.clients s.reg.connectedClients = some ⟨CHANNEL_BUFFER_SIZE, []⟩ ∧
    (connect s).handlers[s.handlers.length]? =
      some ⟨s.reg.connectedClients, Phase.Streaming, []⟩ ∧
    ∃ h, (run (connect s) evs).handlers[s.handlers.length]? = some h ∧
      h.id = s.reg.connectedClients ∧
      List.Sublist (h.written ++ bufAt (run (connect s) evs).reg h.id) (broadcastLines evs) := by
  have h1 : (connect s).reg.clients s.reg.connectedClients = some ⟨CHANNEL_BUFFER_SIZE, []⟩ := by
    simp [connect, register, mapSet_apply, makeChan]
  have h2 : (connect s).handlers[s.handlers.length]? =
      some ⟨s.reg.connectedClients, Phase.Streaming, []⟩ := by
    simp [connect, register]
  refine ⟨h1, h2, ?_⟩
  have h0 : DrawnFrom s.handlers.length s.reg.connectedClients (connect s) [] := by
    refine ⟨_, h2, rfl, ?_⟩
    simp [bufAt, h1]
  obtain ⟨h, hn, hid, hsub⟩ := drawnFrom_run _ _ evs _ _ h0
  refine ⟨h, hn, hid, ?_⟩
  rw [hid]
  simpa using hsub

/-! ## Keys of `clients` -/

theorem disconnect_clients (s : System) (m : Nat) :
    (disconnect s m).reg.clients = s.reg.clients := by
  cases hm : s.handlers[m]? with
  | none => simp [disconnect, hm]
  | some hm1 =>
    cases hp : hm1.phase with
    | Closed => simp [disconnect, hm, hp]
    | Streaming => simp [disconnect, hm, hp, cleanup]

theorem disconnect_ids (s : System) (m : Nat) (h1 : Handler)
    (hmem : h1 ∈ (disconnect s m).handlers) : ∃ h ∈ s.handlers, h.id = h1.id := by
  cases hm : s.handlers[m]? with
  | none =>
    have e : disconnect s m = s := by simp [disconnect, hm]
    rw [e] at hmem; exact ⟨h1, hmem, rfl⟩
  | some hm1 =>
    cases hp : hm1.phase with
    | Closed =>
      have e : disconnect s m = s := by simp [disconnect, hm, hp]
      rw [e] at hmem; exact ⟨h1, hmem, rfl⟩
    | Streaming =>
      have e : disconnect s m =
          ⟨cleanup s.reg, s.handlers.set m { hm1 with phase := Phase.Closed }⟩ := by
        simp [disconnect, hm, hp]
      rw [e] at hmem
      rcases List.mem_or_eq_of_mem_set hmem with hin | heq
      · exact ⟨h1, hin, rfl⟩
      · exact ⟨hm1, List.getElem?_mem hm, by rw [heq]⟩

theorem recv_keys (r r1 : Registry) (id k : Int) (line : Line)
    (hr : recv r id = some (line, r1)) (hk : (r.clients k).isSome) :
    (r1.clients k).isSome := by
  obtain ⟨cap, rest, _, rfl⟩ := recv_some r r1 id line hr
  show (mapSet r.clients id ⟨cap, rest⟩ k).isSome
  rw [mapSet_apply]
  split
  · rfl
  · exact hk

theorem step_keys (s : System) (ev : Event) (k : Int) (hk : (s.reg.clients k).isSome) :
    ((step s ev).reg.clients k).isSome := by
  cases ev with
  | connect =>
    show (mapSet s.reg.clients s.reg.connectedClients _ k).isSome
    rw [mapSet_apply]
    split
    · rfl
    · exact hk
  | disconnect m =>
    show ((disconnect s m).reg.clients k).isSome
    rw [disconnect_clients]; exact hk
  | broadcast l =>
    show ((broadcast s.reg l).clients k).isSome
    rw [broadcast_clients]
    split
    · cases hc : s.reg.clients k with
      | none => rw [hc] at hk; cases hk
      | some ch => rfl
    · exact hk
  | iterate m w =>
    show ((iterate s m w).reg.clients k).isSome
    cases hmm : s.handlers[m]? with
    | none => simpa [iterate, hmm] using hk
    | some hm =>
      cases hp : hm.phase with
      | Closed => simpa [iterate, hmm, hp] using hk
      | Streaming =>
        cases hr : recv s.reg hm.id with
        | none => simpa [iterate, hmm, hp, hr] using hk
        | some p =>
          obtain ⟨line, r1⟩ := p
          have hk1 := recv_keys s.reg r1 hm.id k line hr hk
          cases w with
          | ok => simpa [iterate, hmm, hp, hr] using hk1
          | err => simpa [iterate, hmm, hp, hr] using hk1
          | panics =>
            have e : iterate s m WriteResult.panics = disconnect ⟨r1, s.handlers⟩ m := by
              simp [iterate, hmm, hp, hr]
            rw [e, disconnect_clients]; exact hk1

theorem step_ids (s : System) (ev : Event) (h1 : Handler) (hmem : h1 ∈ (step s ev).handlers) :
    (∃ h ∈ s.handlers, h.id = h1.id) ∨ (ev = Event.connect ∧ h1.id = s.reg.connectedClients) := by
  cases ev with
  | connect =>
    have hmem2 : h1 ∈ s.handlers ++ [⟨s.reg.connectedClients, Phase.Streaming, []⟩] := hmem
    rcases List.mem_append.mp hmem2 with hin | hin
    · exact Or.inl ⟨h1, hin, rfl⟩
    · right
      refine ⟨rfl, ?_⟩
      rw [List.mem_singleton.mp hin]
  | disconnect m => exact Or.inl (disconnect_ids s m h1 hmem)
  | broadcast l => exact Or.inl ⟨h1, hmem, rfl⟩
  | iterate m w =>
    left
    have hmem2 : h1 ∈ (iterate s m w).handlers := hmem
    cases hmm : s.handlers[m]? with
    | none =>
      have e : iterate s m w = s := by simp [iterate, hmm]
      rw [e] at hmem2; exact ⟨h1, hmem2, rfl⟩
    | some hm =>
      cases hp : hm.phase with
      | Closed =>
        have e : iterate s m w = s := by simp [iterate, hmm, hp]
        rw [e] at hmem2; exact ⟨h1, hmem2, rfl⟩
      | Streaming =>
        cases hr : recv s.reg hm.id with
        | none =>
          have e : iterate s m w = s := by simp [iterate, hmm, hp, hr]
          rw [e] at hmem2; exact ⟨h1, hmem2, rfl⟩
        | some p =>
          obtain ⟨line, r1⟩ := p
          cases w with
          | ok =>
            have e : iterate s m WriteResult.ok =
                ⟨r1, s.handlers.set m { hm with written := hm.written ++ [line] }⟩ := by
              simp [iterate, hmm, hp, hr]
            rw [e] at hmem2
            rcases List.mem_or_eq_of_mem_set hmem2 with hin | heq
            · exact ⟨h1, hin, rfl⟩
            · exact ⟨hm, List.getElem?_mem hmm, by rw [heq]⟩
          | err =>
            have e : iterate s m WriteResult.err = ⟨r1, s.handlers⟩ := by
              simp [iterate, hmm, hp, hr]
            rw [e] at hmem2; exact ⟨h1, hmem2, rfl⟩
          | panics =>
            have e : iterate s m WriteResult.panics = disconnect ⟨r1, s.handlers⟩ m := by
              simp [iterate, hmm, hp, hr]
            rw [e] at hmem2
            exact disconnect_ids ⟨r1, s.handlers⟩ m h1 hmem2

theorem run_snoc (s : System) (evs : List Event) (ev : Event) :
    run s (evs ++ [ev]) = step (run s evs) ev := by
  simp [run, List.foldl_append]

theorem keys_cover (evs : List Event) :
    ∀ h ∈ (run initSystem evs).handlers, ((run initSystem evs).reg.clients h.id).isSome := by
  induction evs using List.reverseRecOn with
  | nil => intro h hmem; cases hmem
  | append_singleton evs ev ih =>
    intro h1 hmem
    rw [run_snoc] at hmem ⊢
    rcases step_ids _ ev h1 hmem with ⟨h, hin, hid⟩ | ⟨hev, hid⟩
    · rw [← hid]; exact step_keys _ ev _ (ih h hin)
    · subst hev
      rw [hid]
      show (mapSet _ _ _ _).isSome
      rw [mapSet_apply, if_pos rfl]; rfl

/-! ## The reader -/

theorem readString_length (d : UInt8) (input : List Item)
    (h : (readString d input).2.1 ≠ ReadErr.EOF) :
    (readString d input).2.2.length < input.length := by
  induction input with
  | nil => simp [readString] at h
  | cons it rest ih =>
    cases it with
    | fault => simp [readString]
    | byte b =>
      by_cases hb : b = d
      · simp [readString, hb]
      · simp only [readString, hb, if_false] at h ⊢
        have := ih h
        simp only [List.length_cons]
        omega

theorem readString_delim (d : UInt8) (body : List UInt8) (rest : List Item) (hb : d ∉ body) :
    readString d (body.map Item.byte ++ Item.byte d :: rest) = (body ++ [d], ReadErr.nil, rest) := by
  induction body with
  | nil => simp [readString]
  | cons b body ih =>
    have hne : b ≠ d := fun e => hb (e ▸ List.mem_cons_self _ _)
    have hb2 : d ∉ body := fun hm => hb (List.mem_cons_of_mem _ hm)
    simp [readString, hne, ih hb2]

theorem readString_fault (d : UInt8) (body : List UInt8) (rest : List Item) (hb : d ∉ body) :
    readString d (body.map Item.byte ++ Item.fault :: rest) = (body, ReadErr.other, rest) := by
  induction body with
  | nil => simp [readString]
  | cons b body ih =>
    have hne : b ≠ d := fun e => hb (e ▸ List.mem_cons_self _ _)
    have hb2 : d ∉ body := fun hm => hb (List.mem_cons_of_mem _ hm)
    simp [readString, hne, ih hb2]

theorem readString_eof (d : UInt8) (body : List UInt8) (hb : d ∉ body) :
    readString d (body.map Item.byte) = (body, ReadErr.EOF, []) := by
  induction body with
  | nil => simp [readString]
  | cons b body ih =>
    have hne : b ≠ d := fun e => hb (e ▸ List.mem_cons_self _ _)
    have hb2 : d ∉ body := fun hm => hb (List.mem_cons_of_mem _ hm)
    simp [readString, hne, ih hb2]

theorem readFileLoop_fuel (f1 : Nat) :
    ∀ (f2 : Nat) (input : List Item) (r : Registry), input.length < f1 → input.length < f2 →
      readFileLoop f1 input r = readFileLoop f2 input r := by
  induction f1 with
  | zero => intro f2 input r h1; omega
  | succ f1 ih =>
    intro f2 input r h1 h2
    cases f2 with
    | zero => omega
    | succ f2 =>
      simp only [readFileLoop]
      by_cases he : (readString 10 input).2.1 = ReadErr.EOF
      · simp [he]
      · have hl := readString_length 10 input he
        simp only [he, if_false]
        rw [ih f2 _ _ (by omega) (by omega)]

/-- The loop of `readFile` always reaches the return of line 82 within the bound. -/
theorem readFile_returns (input : List Item) (r : Registry) :
    (readFile input r).isSome := by
  unfold readFile
  generalize hf : input.length + 1 = f
  have hlt : input.length < f := by omega
  clear hf
  induction f generalizing input r with
  | zero => omega
  | succ f ih =>
    simp only [readFileLoop]
    by_cases he : (readString 10 input).2.1 = ReadErr.EOF
    · simp [he]
    · have hl := readString_length 10 input he
      simp only [he, if_false, Option.isSome_map']
      exact ih _ _ (by omega)

/-- One turn of the loop of `readFile`. -/
theorem readFile_turn (input : List Item) (r : Registry) :
    readFile input r =
      if (readString 10 input).2.1 = ReadErr.EOF then some ([], r)
      else (readFile (readString 10 input).2.2 (broadcast r (readString 10 input).1)).map
        (fun p => ((readString 10 input).1 :: p.1, p.2)) := by
  unfold readFile
  by_cases he : (readString 10 input).2.1 = ReadErr.EOF
  · simp [readFileLoop, he]
  · have hl := readString_length 10 input he
    rw [readFileLoop_fuel ((readString 10 input).2.2.length + 1) input.length _ _
      (by omega) (by omega)]
    simp [readFileLoop, he]

theorem split_first (d : UInt8) (bytes : List UInt8) :
    d ∉ bytes ∨ ∃ body rest, d ∉ body ∧ bytes = body ++ d :: rest := by
  induction bytes with
  | nil => left; simp
  | cons b bytes ih =>
    by_cases hb : b = d
    · right; exact ⟨[], bytes, by simp, by simp [hb]⟩
    · rcases ih with hn | ⟨body, rest, hn, he⟩
      · left
        intro hm
        rcases List.mem_cons.mp hm with h1 | h1
        · exact hb h1.symm
        · exact hn h1
      · right
        refine ⟨b :: body, rest, ?_, by simp [he]⟩
        intro hm
        rcases List.mem_cons.mp hm with h1 | h1
        · exact hb h1.symm
        · exact hn h1

/-! ## C10 -/

/-- C10: on a stream of bytes read without error up to end-of-stream,
`readFile` returns, the lines it hands to the broadcast are handed in order,
each is a run of bytes other than newline followed by one newline, and their
concatenation is the input up to and including its last newline: what follows
is a tail without newline that is not broadcast. -/
theorem readFile_hands_lines (bytes : List UInt8) (r : Registry) :
    ∃ ls : List Line, readFile (bytes.map Item.byte) r = some (ls, ls.foldl broadcast r) ∧
      (∀ l ∈ ls, ∃ body : List UInt8, l = body ++ [10] ∧ (10 : UInt8) ∉ body) ∧
      ∃ tail : List UInt8, (10 : UInt8) ∉ tail ∧ bytes = ls.flatten ++ tail := by
  generalize hn : bytes.length = n
  induction n using Nat.strong_induction_on generalizing bytes r with
  | _ n ih =>
    rcases split_first 10 bytes with hno | ⟨body, rest, hbody, hsplit⟩
    · refine ⟨[], ?_, by simp, bytes, hno, by simp⟩
      rw [readFile_turn, readString_eof 10 bytes hno]
      simp
    · have hlen : rest.length < n := by
        rw [← hn, hsplit]; simp; omega
      obtain ⟨ls, hrun, hlines, tail, htail, hcat⟩ :=
        ih rest.length hlen rest (broadcast r (body ++ [10])) rfl
      refine ⟨(body ++ [10]) :: ls, ?_, ?_, tail, htail, ?_⟩
      · have hmap : bytes.map Item.byte =
            body.map Item.byte ++ Item.byte 10 :: rest.map Item.byte := by
          rw [hsplit]; simp
        rw [readFile_turn, hmap, readString_delim 10 body _ hbody]
        simp [hrun]
      · intro l hl
        rcases List.mem_cons.mp hl with h1 | h1
        · exact ⟨body, h1, hbody⟩
        · exact hlines l h1
      · rw [hsplit, List.flatten_cons, List.append_assoc, List.append_assoc, ← hcat]
        simp

/-! ## C1 -/

/-- C1, at a failing run: after two connects, the disconnect of the first
client and a third connect, the second and the third handler are both Active
and both hold identifier 1, so both read the channel `clients[1]`. -/
theorem active_handlers_share_identifier :
    Active (run initSystem [Event.connect, Event.connect, Event.disconnect 0, Event.connect]) 1 ∧
    Active (run initSystem [Event.connect, Event.connect, Event.disconnect 0, Event.connect]) 2 ∧
    idOf (run initSystem [Event.connect, Event.connect, Event.disconnect 0, Event.connect]) 1
      = some 1 ∧
    idOf (run initSystem [Event.connect, Event.connect, Event.disconnect 0, Event.connect]) 2
      = some 1 :=
  ⟨⟨⟨1, Phase.Streaming, []⟩, by decide, rfl⟩, ⟨⟨1, Phase.Streaming, []⟩, by decide, rfl⟩,
    by decide, by decide⟩

/-! ## C2 -/

/-- C2, at a failing state: after two connects and the disconnect of the first
client, the first handler is Closed with identifier 0 and the second is Active
with identifier 1; a broadcast then queues the line in `clients[0]` and leaves
`clients[1]`, which is empty, as it is. -/
theorem broadcast_misses_active_client (line : Line) :
    (run initSystem [Event.connect, Event.connect, Event.disconnect 0]).handlers
      = [⟨0, Phase.Closed, []⟩, ⟨1, Phase.Streaming, []⟩] ∧
    (run initSystem [Event.connect, Event.connect, Event.disconnect 0]).reg.clients 0
      = some ⟨100, []⟩ ∧
    (broadcast (run initSystem [Event.connect, Event.connect, Event.disconnect 0]).reg
      line).clients 0 = some ⟨100, [line]⟩ ∧
    (run initSystem [Event.connect, Event.connect, Event.disconnect 0]).reg.clients 1
      = some ⟨100, []⟩ ∧
    (broadcast (run initSystem [Event.connect, Event.connect, Event.disconnect 0]).reg
      line).clients 1 = some ⟨100, []⟩ := by
  have hc : (run initSystem
      [Event.connect, Event.connect, Event.disconnect 0]).reg.connectedClients = 1 := by decide
  have h0 : (run initSystem
      [Event.connect, Event.connect, Event.disconnect 0]).reg.clients 0 = some ⟨100, []⟩ := by
    decide
  have h1 : (run initSystem
      [Event.connect, Event.connect, Event.disconnect 0]).reg.clients 1 = some ⟨100, []⟩ := by
    decide
  refine ⟨by decide, h0, ?_, h1, ?_⟩
  · rw [broadcast_clients, hc, if_pos (by decide), h0]; rfl
  · rw [broadcast_clients, hc, if_neg (by decide), h1]

/-! ## C4 -/

/-- C4 fails as stated: after one connect and the disconnect of that client,
0 is still a key of `clients` while no Active handler holds identifier 0. -/
theorem key_outlives_session :
    ((run initSystem [Event.connect, Event.disconnect 0]).reg.clients 0).isSome ∧
    ¬ ∃ n, Active (run initSystem [Event.connect, Event.disconnect 0]) n ∧
      idOf (run initSystem [Event.connect, Event.disconnect 0]) n = some 0 := by
  refine ⟨by decide, ?_⟩
  rintro ⟨n, ⟨h, hn, hp⟩, _⟩
  have hh : (run initSystem [Event.connect, Event.disconnect 0]).handlers
      = [⟨0, Phase.Closed, []⟩] := by decide
  rw [hh] at hn
  cases n with
  | zero =>
    simp at hn
    rw [← hn] at hp
    cases hp
  | succ n => simp at hn

/-- C4, amended: in every reachable state the identifier of every Active
handler is a key of `clients`; the deferred cleanup leaves `clients` as it is,
so a key is never removed. -/
theorem active_identifier_is_key (s : System) (hs : Reachable s) :
    (∀ (n : Nat) (h : Handler), s.handlers[n]? = some h → h.phase = Phase.Streaming →
      (s.reg.clients h.id).isSome) ∧
    (∀ n, (disconnect s n).reg.clients = s.reg.clients) := by
  obtain ⟨evs, rfl⟩ := hs
  refine ⟨?_, fun n => disconnect_clients _ n⟩
  intro n h hn _
  exact keys_cover evs h (List.getElem?_mem hn)

/-- C4, amended, at the state after a connect, the disconnect of that client and
a second connect. -/
theorem active_identifier_is_key_witness :
    Reachable (run initSystem [Event.connect, Event.disconnect 0, Event.connect]) ∧
    ((∀ (n : Nat) (h : Handler),
        (run initSystem [Event.connect, Event.disconnect 0, Event.connect]).handlers[n]?
        = some h → h.phase = Phase.Streaming →
        ((run initSystem [Event.connect, Event.disconnect 0, Event.connect]).reg.clients
          h.id).isSome) ∧
      (∀ n, (disconnect (run initSystem [Event.connect, Event.disconnect 0, Event.connect])
        n).reg.clients
        = (run initSystem [Event.connect, Event.disconnect 0, Event.connect]).reg.clients)) :=
  ⟨⟨_, rfl⟩, active_identifier_is_key _ ⟨_, rfl⟩⟩

/-! ## C5 -/

/-- C5, at a failing run: after two connects and the disconnect of the first
client, the second handler is Active and its channel is empty; the line
`a\n` is broadcast and the handler takes its turn, yet it has written nothing
and nothing waits in its channel. -/
theorem connected_client_misses_line :
    (run initSystem [Event.connect, Event.connect, Event.disconnect 0]).reg.clients 1
      = some ⟨100, []⟩ ∧
    (run initSystem [Event.connect, Event.connect, Event.disconnect 0,
      Event.broadcast [97, 10], Event.iterate 1 WriteResult.ok]).handlers[1]?
      = some ⟨1, Phase.Streaming, []⟩ ∧
    bufAt (run initSystem [Event.connect, Event.connect, Event.disconnect 0,
      Event.broadcast [97, 10], Event.iterate 1 WriteResult.ok]).reg 1 = [] := by
  refine ⟨by decide, by decide, by decide⟩

/-- Scenario A when every send goroutine runs where it is spawned: with one
client connected before reading begins, the stream `a\n`, `b\n`, `c\n` leaves
exactly these three lines, in order, in the client's channel, and three turns
of its handler write them in order. -/
theorem scenarioA_delivers_in_order :
    (readFile [Item.byte 97, Item.byte 10, Item.byte 98, Item.byte 10, Item.byte 99, Item.byte 10]
      (connect initSystem).reg).map (fun p => p.2.clients 0)
      = some (some ⟨100, [[97, 10], [98, 10], [99, 10]]⟩) ∧
    (run initSystem [Event.connect, Event.broadcast [97, 10], Event.broadcast [98, 10],
      Event.broadcast [99, 10], Event.iterate 0 WriteResult.ok, Event.iterate 0 WriteResult.ok,
      Event.iterate 0 WriteResult.ok]).handlers
      = [⟨0, Phase.Streaming, [[97, 10], [98, 10], [99, 10]]⟩] := by
  refine ⟨by decide, by decide⟩

/-! ## C6 -/

/-- C6, on the code: a turn of the handler loop whose `con.Write` returns an
error leaves every handler in its phase and `connectedClients` as it was, so no
cleanup runs; with `a\n` and `b\n` queued, the handler whose write of `a\n`
failed is still Streaming and takes `b\n` on its next turn. -/
theorem write_error_keeps_streaming (s : System) (n : Nat) :
    (iterate s n WriteResult.err).handlers = s.handlers ∧
    (iterate s n WriteResult.err).reg.connectedClients = s.reg.connectedClients ∧
    (run initSystem [Event.connect, Event.broadcast [97, 10], Event.broadcast [98, 10],
      Event.iterate 0 WriteResult.err]).handlers = [⟨0, Phase.Streaming, []⟩] ∧
    (run initSystem [Event.connect, Event.broadcast [97, 10], Event.broadcast [98, 10],
      Event.iterate 0 WriteResult.err, Event.iterate 0 WriteResult.ok]).handlers
      = [⟨0, Phase.Streaming, [[98, 10]]⟩] := by
  refine ⟨?_, ?_, by decide, by decide⟩
  · cases hmm : s.handlers[n]? with
    | none => simp [iterate, hmm]
    | some hm =>
      cases hp : hm.phase with
      | Closed => simp [iterate, hmm, hp]
      | Streaming =>
        cases hr : recv s.reg hm.id with
        | none => simp [iterate, hmm, hp, hr]
        | some p => simp [iterate, hmm, hp, hr]
  · cases hmm : s.handlers[n]? with
    | none => simp [iterate, hmm]
    | some hm =>
      cases hp : hm.phase with
      | Closed => simp [iterate, hmm, hp]
      | Streaming =>
        cases hr : recv s.reg hm.id with
        | none => simp [iterate, hmm, hp, hr]
        | some p =>
          obtain ⟨line, r1⟩ := p
          obtain ⟨cap, rest, _, rfl⟩ := recv_some s.reg r1 hm.id line hr
          simp [iterate, hmm, hp, hr]

/-! ## C7 -/

/-- C7 fails as stated: on the stream "read error, then `a\n`" with one client
registered, `readFile` hands two lines to the broadcast after the failing read
(the empty data of that read, then `a\n`), and the client's channel, empty
when the error occurred, ends up holding both. -/
theorem lines_after_read_error :
    (connect initSystem).reg.clients 0 = some ⟨100, []⟩ ∧
    (readFile [Item.fault, Item.byte 97, Item.byte 10] (connect initSystem).reg).map Prod.fst
      = some [[], [97, 10]] ∧
    (readFile [Item.fault, Item.byte 97, Item.byte 10] (connect initSystem).reg).map
      (fun p => p.2.clients 0) = some (some ⟨100, [[], [97, 10]]⟩) := by
  refine ⟨by decide, by decide, by decide⟩

/-- C7, amended: a read that returns an error other than end-of-stream does
not stop `readFile`: the bytes that read returned are handed to the broadcast
as a line and the loop goes on with the rest of the stream, on which it
returns; `readFile` stops at end-of-stream, where it hands over nothing. -/
theorem readFile_stops_only_at_eof (pre : List UInt8) (post : List Item) (r : Registry)
    (hpre : (10 : UInt8) ∉ pre) :
    readFile (pre.map Item.byte ++ Item.fault :: post) r
      = (readFile post (broadcast r pre)).map (fun p => (pre :: p.1, p.2)) ∧
    (readFile post (broadcast r pre)).isSome ∧
    readFile (pre.map Item.byte) r = some ([], r) := by
  refine ⟨?_, readFile_returns _ _, ?_⟩
  · rw [readFile_turn, readString_fault 10 pre post hpre]
    simp
  · rw [readFile_turn, readString_eof 10 pre hpre]
    simp

/-- C7, amended, at the stream "`a`, read error, `b\n`" with one client
registered. -/
theorem readFile_stops_only_at_eof_witness :
    (10 : UInt8) ∉ ([97] : List UInt8) ∧
    (readFile (([97] : List UInt8).map Item.byte ++ Item.fault :: [Item.byte 98, Item.byte 10])
        (connect initSystem).reg
      = (readFile [Item.byte 98, Item.byte 10] (broadcast (connect initSystem).reg [97])).map
          (fun p => ([97] :: p.1, p.2)) ∧
    (readFile [Item.byte 98, Item.byte 10] (broadcast (connect initSystem).reg [97])).isSome ∧
    readFile (([97] : List UInt8).map Item.byte) (connect initSystem).reg
      = some ([], (connect initSystem).reg)) :=
  ⟨by decide, readFile_stops_only_at_eof [97] [Item.byte 98, Item.byte 10]
    (connect initSystem).reg (by decide)⟩

/-! ## The send goroutines -/

/-- The step `broadcast` is the critical section of `readFile` followed by its
goroutines, each run at once and in index order. -/
theorem broadcast_eq_spawn_then_run (r : Registry) (line : Line) :
    broadcast r line =
      ⟨(spawnSends r line).foldl (fun m p => sendTo m p.1 p.2) r.clients,
        r.connectedClients⟩ := by
  unfold broadcast spawnSends
  by_cases hc : r.connectedClients > 0
  · simp only [hc, if_true, List.foldl_map]
  · simp only [hc, if_false, List.foldl_nil]

/-- Two lines read in a row with their goroutines run in the other order: the
client's channel holds `b\n` before `a\n`. -/
theorem burst_can_be_reordered :
    (schedRun initSched [SchedEvent.connect, SchedEvent.readLine [97, 10],
      SchedEvent.readLine [98, 10], SchedEvent.runSend 1,
      SchedEvent.runSend 0]).sys.reg.clients 0 = some ⟨100, [[98, 10], [97, 10]]⟩ := by
  decide

/-! ## C8 -/

/-- C8, at a failing run: client A connects, `a\n` is read and sent to A,
`b\n` is read and its goroutine for index 0 is spawned; before that goroutine
runs, A's write of `a\n` panics and A's deferred function runs, and client C
connects: it is given identifier 0 and an empty channel in `clients[0]`.  The
goroutine then runs and queues `b\n` in C's channel, and C writes `b\n`, a line
read and broadcast before C registered. -/
theorem late_send_replays_line :
    (schedRun initSched [SchedEvent.connect, SchedEvent.readLine [97, 10],
      SchedEvent.runSend 0, SchedEvent.readLine [98, 10],
      SchedEvent.iterate 0 WriteResult.panics]).pending = [(0, [98, 10])] ∧
    (schedRun initSched [SchedEvent.connect, SchedEvent.readLine [97, 10],
      SchedEvent.runSend 0, SchedEvent.readLine [98, 10],
      SchedEvent.iterate 0 WriteResult.panics, SchedEvent.connect]).sys.handlers
      = [⟨0, Phase.Closed, []⟩, ⟨0, Phase.Streaming, []⟩] ∧
    (schedRun initSched [SchedEvent.connect, SchedEvent.readLine [97, 10],
      SchedEvent.runSend 0, SchedEvent.readLine [98, 10],
      SchedEvent.iterate 0 WriteResult.panics, SchedEvent.connect]).sys.reg.clients 0
      = some ⟨100, []⟩ ∧
    (schedRun initSched [SchedEvent.connect, SchedEvent.readLine [97, 10],
      SchedEvent.runSend 0, SchedEvent.readLine [98, 10],
      SchedEvent.iterate 0 WriteResult.panics, SchedEvent.connect,
      SchedEvent.runSend 0]).sys.reg.clients 0 = some ⟨100, [[98, 10]]⟩ ∧
    (schedRun initSched [SchedEvent.connect, SchedEvent.readLine [97, 10],
      SchedEvent.runSend 0, SchedEvent.readLine [98, 10],
      SchedEvent.iterate 0 WriteResult.panics, SchedEvent.connect,
      SchedEvent.runSend 0, SchedEvent.iterate 1 WriteResult.ok]).sys.handlers
      = [⟨0, Phase.Closed, []⟩, ⟨0, Phase.Streaming, [[98, 10]]⟩] := by
  refine ⟨by decide, by decide, by decide, by decide, by decide⟩

/-! ## The counter and the Active handlers -/

theorem countP_set (p : Handler → Bool) (l : List Handler) (n : Nat) (h h1 : Handler)
    (hn : l[n]? = some h) :
    (l.set n h1).countP p + (if p h then 1 else 0) = l.countP p + (if p h1 then 1 else 0) := by
  induction l generalizing n with
  | nil => simp at hn
  | cons a l ih =>
    cases n with
    | zero =>
      simp at hn
      subst hn
      simp only [List.set_cons_zero, List.countP_cons]
      omega
    | succ n =>
      simp at hn
      have := ih n hn
      simp only [List.set_cons_succ, List.countP_cons]
      omega

theorem countP_set_same (p : Handler → Bool) (l : List Handler) (n : Nat) (h h1 : Handler)
    (hn : l[n]? = some h) (hp : p h1 = p h) : (l.set n h1).countP p = l.countP p := by
  have hc := countP_set p l n h h1 hn
  rw [hp] at hc
  omega

theorem countP_set_drop (p : Handler → Bool) (l : List Handler) (n : Nat) (h h1 : Handler)
    (hn : l[n]? = some h) (hp : p h = true) (hp1 : p h1 = false) :
    (l.set n h1).countP p + 1 = l.countP p := by
  have hc := countP_set p l n h h1 hn
  rw [hp, hp1] at hc
  simpa using hc

theorem disconnect_count (s : System) (n : Nat)
    (hinv : s.reg.connectedClients = activeCount s) :
    (disconnect s n).reg.connectedClients = activeCount (disconnect s n) := by
  cases hm : s.handlers[n]? with
  | none =>
    have e : disconnect s n = s := by simp [disconnect, hm]
    rw [e]; exact hinv
  | some h =>
    cases hp : h.phase with
    | Closed =>
      have e : disconnect s n = s := by simp [disconnect, hm, hp]
      rw [e]; exact hinv
    | Streaming =>
      have e : disconnect s n =
          ⟨cleanup s.reg, s.handlers.set n { h with phase := Phase.Closed }⟩ := by
        simp [disconnect, hm, hp]
      rw [e]
      have hc := countP_set_drop (fun h => decide (h.phase = Phase.Streaming)) s.handlers n h
        { h with phase := Phase.Closed } hm (by simp [hp]) (by simp)
      simp only [activeCount] at hinv ⊢
      show s.reg.connectedClients - 1 = _
      omega

theorem step_count (s : System) (ev : Event)
    (hinv : s.reg.connectedClients = activeCount s) :
    (step s ev).reg.connectedClients = activeCount (step s ev) := by
  cases ev with
  | connect =>
    show s.reg.connectedClients + 1 = activeCount (connect s)
    simp only [activeCount, connect, List.countP_append] at hinv ⊢
    simp [hinv]
  | disconnect n => exact disconnect_count s n hinv
  | broadcast l =>
    show (broadcast s.reg l).connectedClients = activeCount s
    rw [broadcast_connectedClients]; exact hinv
  | iterate m w =>
    show (iterate s m w).reg.connectedClients = activeCount (iterate s m w)
    cases hmm : s.handlers[m]? with
    | none =>
      have e : iterate s m w = s := by simp [iterate, hmm]
      rw [e]; exact hinv
    | some hm =>
      cases hp : hm.phase with
      | Closed =>
        have e : iterate s m w = s := by simp [iterate, hmm, hp]
        rw [e]; exact hinv
      | Streaming =>
        cases hr : recv s.reg hm.id with
        | none =>
          have e : iterate s m w = s := by simp [iterate, hmm, hp, hr]
          rw [e]; exact hinv
        | some p =>
          obtain ⟨line, r1⟩ := p
          obtain ⟨cap, rest, _, hr1⟩ := recv_some s.reg r1 hm.id line hr
          have hc1 : r1.connectedClients = s.reg.connectedClients := by rw [hr1]
          cases w with
          | ok =>
            have e : iterate s m WriteResult.ok =
                ⟨r1, s.handlers.set m { hm with written := hm.written ++ [line] }⟩ := by
              simp [iterate, hmm, hp, hr]
            rw [e]
            have hc := countP_set_same (fun h => decide (h.phase = Phase.Streaming)) s.handlers
              m hm { hm with written := hm.written ++ [line] } hmm rfl
            simp only [activeCount] at hinv ⊢
            show r1.connectedClients = _
            rw [hc1, hinv, hc]
          | err =>
            have e : iterate s m WriteResult.err = ⟨r1, s.handlers⟩ := by
              simp [iterate, hmm, hp, hr]
            rw [e]
            show r1.connectedClients = activeCount s
            rw [hc1]; exact hinv
          | panics =>
            have e : iterate s m WriteResult.panics = disconnect ⟨r1, s.handlers⟩ m := by
              simp [iterate, hmm, hp, hr]
            rw [e]
            exact disconnect_count ⟨r1, s.handlers⟩ m (by
              show r1.connectedClients = activeCount s
              rw [hc1]; exact hinv)

/-- In every reachable state `connectedClients` is the number of Active handlers. -/
theorem counter_is_active_count (evs : List Event) :
    (run initSystem evs).reg.connectedClients = activeCount (run initSystem evs) := by
  induction evs using List.reverseRecOn with
  | nil => rfl
  | append_singleton evs ev ih =>
    rw [run_snoc]
    exact step_count _ ev ih

theorem activeCount_pos (s : System) (n : Nat) (hn : Active s n) : 0 < activeCount s := by
  obtain ⟨h, hh, hp⟩ := hn
  exact List.countP_pos_iff.mpr ⟨h, List.getElem?_mem hh, by simp [hp]⟩

theorem wrapInt_id (z : Int) (h0 : 0 ≤ z) (h1 : z < 9223372036854775808) : wrapInt z = z := by
  unfold wrapInt
  omega

/-! ## C9 -/

/-- C9 fails as stated: after two connects, the disconnect of the first client
and a third connect, the second and the third handler are Active and both hold
identifier 1; the cleanup run for identifier 1 once leaves `connectedClients`
at 1, run for identifier 1 a second time it leaves 0. -/
theorem cleanup_twice_for_one_identifier :
    Active (run initSystem [Event.connect, Event.connect, Event.disconnect 0, Event.connect]) 1 ∧
    Active (run initSystem [Event.connect, Event.connect, Event.disconnect 0, Event.connect]) 2 ∧
    idOf (run initSystem [Event.connect, Event.connect, Event.disconnect 0, Event.connect]) 1
      = some 1 ∧
    idOf (run initSystem [Event.connect, Event.connect, Event.disconnect 0, Event.connect]) 2
      = some 1 ∧
    (run initSystem [Event.connect, Event.connect, Event.disconnect 0,
      Event.connect]).reg.connectedClients = 2 ∧
    (run initSystem [Event.connect, Event.connect, Event.disconnect 0, Event.connect,
      Event.disconnect 1]).reg.connectedClients = 1 ∧
    (run initSystem [Event.connect, Event.connect, Event.disconnect 0, Event.connect,
      Event.disconnect 1, Event.disconnect 2]).reg.connectedClients = 0 :=
  ⟨⟨⟨1, Phase.Streaming, []⟩, by decide, rfl⟩, ⟨⟨1, Phase.Streaming, []⟩, by decide, rfl⟩,
    by decide, by decide, by decide, by decide, by decide⟩

/-- C9, amended: the cleanup takes no identifier and runs once per handler.  In
every reachable state `connectedClients` is the number of Active handlers; for
an Active handler, with a counter that is a Go `int`, a non-nil `con` and a
recovered value that is nil or an `error`, the deferred function returns, leaves
`clients` as it is and lowers `connectedClients` by one; after it the handler is
no longer Active and its cleanup does not run again. -/
theorem cleanup_once_per_handler (s : System) (n : Nat) (rec : Recovered)
    (hs : Reachable s) (hn : Active s n)
    (hint : s.reg.connectedClients < 9223372036854775808)
    (hrec : rec ≠ Recovered.notAnError) :
    s.reg.connectedClients = activeCount s ∧
    deferredFunc s.reg rec false = Deferred.returns (disconnect s n).reg ∧
    (disconnect s n).reg.clients = s.reg.clients ∧
    (disconnect s n).reg.connectedClients = s.reg.connectedClients - 1 ∧
    ¬ Active (disconnect s n) n ∧
    disconnect (disconnect s n) n = disconnect s n := by
  have hinv : s.reg.connectedClients = activeCount s := by
    obtain ⟨evs, rfl⟩ := hs
    exact counter_is_active_count evs
  have hpos := activeCount_pos s n hn
  obtain ⟨h, hh, hp⟩ := hn
  have hlt : n < s.handlers.length := getElem?_lt_length _ _ _ hh
  have e : disconnect s n =
      ⟨cleanup s.reg, s.handlers.set n { h with phase := Phase.Closed }⟩ := by
    simp [disconnect, hh, hp]
  have hget : (disconnect s n).handlers[n]? = some { h with phase := Phase.Closed } := by
    rw [e]; simp [List.getElem?_set_self hlt]
  have hw : wrapInt (s.reg.connectedClients - 1) = s.reg.connectedClients - 1 :=
    wrapInt_id _ (by omega) (by omega)
  refine ⟨hinv, ?_, disconnect_clients s n, ?_, ?_, ?_⟩
  · rw [e]
    cases rec with
    | notAnError => exact absurd rfl hrec
    | nothing => simp [deferredFunc, cleanup, hw]
    | anError => simp [deferredFunc, cleanup, hw]
  · rw [e]; rfl
  · rintro ⟨h1, hh1, hp1⟩
    rw [hget] at hh1
    cases hh1
    cases hp1
  · have hidem : ∀ (t : System) (h1 : Handler), t.handlers[n]? = some h1 →
        h1.phase = Phase.Closed → disconnect t n = t := by
      intro t h1 ht hp1
      simp [disconnect, ht, hp1]
    exact hidem _ _ hget rfl

/-- C9, amended, at the state after two connects, the disconnect of the first
client and a third connect, for the second handler and a recovered `error`. -/
theorem cleanup_once_per_handler_witness :
    Reachable (run initSystem [Event.connect, Event.connect, Event.disconnect 0,
      Event.connect]) ∧
    Active (run initSystem [Event.connect, Event.connect, Event.disconnect 0, Event.connect]) 1 ∧
    (run initSystem [Event.connect, Event.connect, Event.disconnect 0,
      Event.connect]).reg.connectedClients < 9223372036854775808 ∧
    Recovered.anError ≠ Recovered.notAnError ∧
    ((run initSystem [Event.connect, Event.connect, Event.disconnect 0,
        Event.connect]).reg.connectedClients
      = activeCount (run initSystem [Event.connect, Event.connect, Event.disconnect 0,
        Event.connect]) ∧
    deferredFunc (run initSystem [Event.connect, Event.connect, Event.disconnect 0,
        Event.connect]).reg Recovered.anError false
      = Deferred.returns (disconnect (run initSystem [Event.connect, Event.connect,
        Event.disconnect 0, Event.connect]) 1).reg ∧
    (disconnect (run initSystem [Event.connect, Event.connect, Event.disconnect 0,
        Event.connect]) 1).reg.clients
      = (run initSystem [Event.connect, Event.connect, Event.disconnect 0,
        Event.connect]).reg.clients ∧
    (disconnect (run initSystem [Event.connect, Event.connect, Event.disconnect 0,
        Event.connect]) 1).reg.connectedClients
      = (run initSystem [Event.connect, Event.connect, Event.disconnect 0,
        Event.connect]).reg.connectedClients - 1 ∧
    ¬ Active (disconnect (run initSystem [Event.connect, Event.connect, Event.disconnect 0,
        Event.connect]) 1) 1 ∧
    disconnect (disconnect (run initSystem [Event.connect, Event.connect, Event.disconnect 0,
        Event.connect]) 1) 1
      = disconnect (run initSystem [Event.connect, Event.connect, Event.disconnect 0,
        Event.connect]) 1) :=
  ⟨⟨_, rfl⟩, ⟨⟨1, Phase.Streaming, []⟩, by decide, rfl⟩, by decide, by decide,
    cleanup_once_per_handler _ 1 Recovered.anError ⟨_, rfl⟩
      ⟨⟨1, Phase.Streaming, []⟩, by decide, rfl⟩ (by decide) (by decide)⟩

end Streamd
